import Mathlib

/-!
Verification development for the Grant-Distribution-Analyzer repository
(`src/scripts/protocol_analyzer.py`).

The core under scrutiny is the recursive fund-flow tracer `trace_flow`, its
helpers (`sum_values`, `get_transactions`, the disperse-payout deduplication,
the balance-limiting rule), the classifier `is_disperse_contract`, and the
reconciliation step of `find_beneficiaries`.

Modelling conventions:
* Python `Decimal` amounts are exact rationals (`ℚ`).  A transaction's raw
  `value` field is modelled as `Option ℚ`: `some q` when `Decimal(str(value))`
  succeeds with value `q` (a missing/falsy field becomes `"0"`, i.e. `some 0`),
  and `none` when the string is unparsable, in which case `Decimal(...)`
  raises `InvalidOperation`.
* `parse_iso` results are modelled as `Option ℕ`: `some t` for a parsed
  timestamp (an instant on a linear time axis), `none` when parsing fails.
  `datetime.min`, the sort-key fallback for unparsable timestamps, is strictly
  below every parsed timestamp, which `tsLeB` encodes directly.
* Python dicts are insertion-ordered association lists `List (String × ℚ)`;
  `defaultdict(Decimal)` reads of missing keys default to `0`.
* Python exceptions are `Except Fault`; exhausted recursion fuel is a
  separate `Fault` so that theorems can supply enough fuel explicitly.
* Crucially, the traversal state of `trace_flow` is passed *by object
  reference* in Python, and `beneficiaries = beneficiaries or defaultdict(..)`
  creates a fresh dict exactly when the caller's dict holds no key.  The
  caller then merges the *returned* dict into its own binding, which is the
  very same object whenever the dict was non-empty at call time.  The
  embedding reproduces this at the level of dict contents: the post-call
  merge folds the child's result into either the caller's snapshot (fresh
  object case) or into the child's result itself (aliased case), which is
  what the live Python iteration computes.
-/

namespace ProtocolAnalyzer

/-- Lowercasing as used by `.lower()` in the source (`_normalize_address`,
`get_transactions`, `trace_flow`). -/
def lowerStr (s : String) : String := ⟨s.data.map Char.toLower⟩

/-- RETURN_ADDRESS from the source configuration, already lowercased as the
source does with `.lower()`. -/
def RETURN_ADDRESS : String := "0x544cbe6698e2e3b676c76097305bba588defb13a"

/-- STOP_ADDRESS tuple from the source configuration, lowercased. -/
def STOP_ADDRESS : List String :=
  ["0x435046800fb9149ee65159721a92cb7d50a7534b",
   "0x3350bef226f7bdca874c5561320ab7ef9dc89e70"]

/-- A transaction document as returned by the transaction store.
`fromAddr`/`toAddr` model the Python keys `from`/`to`; `value` is the
`Decimal` parse of the stored value (see module conventions); `timeStamp` is
the `parse_iso` result of the stored timestamp. -/
structure Tx where
  fromAddr : String
  toAddr : String
  value : Option ℚ
  timeStamp : Option Nat
  txHash : String
deriving DecidableEq, Repr

/-- A batch-payout record from the `disperse` collection.  `valueStr` is the
string form `str(row.get("value", 0) or "0")` used verbatim in the dedup key
and in transaction signatures; `value` is its `Decimal` parse (`none` when
`Decimal(valueStr)` would raise); `tsStr` is `str(timeStamp or "")`. -/
structure PayoutRow where
  fromAddr : String
  toAddr : String
  txHash : String
  value : Option ℚ
  valueStr : String
  tsStr : String
deriving DecidableEq, Repr

/-- The external collaborators `trace_flow` consults: the selected
transactions collection, the disperse payout collection, and the answers of
the `is_disperse_contract` classifier (assumed here to answer without
raising; the raising behaviour of the classifier itself is modelled
separately below). -/
structure Env where
  txs : List Tx
  disperseRows : List PayoutRow
  isDisperse : String → Bool

/-- Python dicts keyed by account with `Decimal` values, as insertion-ordered
association lists (unique keys). -/
abbrev Dict := List (String × ℚ)

/-- The `beneficiary_unique_txs` mapping: account → set of signature strings. -/
abbrev UniqTxs := List (String × List String)

/-- Faults: an unhandled Python exception from `Decimal(...)`
(`InvalidOperation`), or exhausted modelling fuel for the recursion. -/
inductive Fault where
  | fuelExhausted
  | invalidDecimal
deriving DecidableEq, Repr

/-- Dict lookup (`d[k]` when present). -/
def dfind : Dict → String → Option ℚ
  | [], _ => none
  | kv :: rest, k => if kv.1 = k then some kv.2 else dfind rest k

/-- Dict read with `defaultdict(Decimal)` default `0`. -/
def dgetD (d : Dict) (k : String) : ℚ := (dfind d k).getD 0

/-- Dict membership (`k in d`). -/
def dmem (d : Dict) (k : String) : Bool := (dfind d k).isSome

/-- Dict assignment `d[k] = v`: updates in place, appends a new key at the
end, exactly like a Python dict. -/
def dset : Dict → String → ℚ → Dict
  | [], k, v => [(k, v)]
  | kv :: rest, k, v => if kv.1 = k then (k, v) :: rest else kv :: dset rest k v

/-- Dict accumulation `d[k] += v` on a `defaultdict(Decimal)`. -/
def dadd (d : Dict) (k : String) (v : ℚ) : Dict := dset d k (dgetD d k + v)

/-- Dict deletion `del d[k]`. -/
def ddel : Dict → String → Dict
  | [], _ => []
  | kv :: rest, k => if kv.1 = k then rest else kv :: ddel rest k

/-- Membership in a set of strings (Python `set`). -/
def smem : List String → String → Bool
  | [], _ => false
  | a :: rest, k => if a = k then true else smem rest k

/-- `set.add` for strings. -/
def sadd (s : List String) (k : String) : List String :=
  if smem s k then s else s ++ [k]

/-- Membership in the `recorded_edges` set of `(from, to)` pairs. -/
def emem : List (String × String) → String × String → Bool
  | [], _ => false
  | a :: rest, e => if a = e then true else emem rest e

/-- `set.add` for edges. -/
def eadd (s : List (String × String)) (e : String × String) : List (String × String) :=
  if emem s e then s else s ++ [e]

/-- `beneficiary_unique_txs[rec].add(sig)` on a `defaultdict(set)`. -/
def addUniqueTx : UniqTxs → String → String → UniqTxs
  | [], k, sig => [(k, [sig])]
  | kv :: rest, k, sig =>
    if kv.1 = k then (k, if smem kv.2 sig then kv.2 else kv.2 ++ [sig]) :: rest
    else kv :: addUniqueTx rest k sig

/-- Comparison key used by every `sorted(..., key=lambda x: parse_iso(...) or
datetime.min)` call: unparsable timestamps (`datetime.min`) sort strictly
first. -/
def tsLeB (a b : Option Nat) : Bool :=
  match a, b with
  | none, _ => true
  | some _, none => false
  | some x, some y => x ≤ y

/-- Python `sorted` by timestamp key.  `sorted` is a stable sort, which
`List.insertionSort` also is, so they compute the same list. -/
def sortByTs (txs : List Tx) : List Tx :=
  List.insertionSort (fun a b => tsLeB a.timeStamp b.timeStamp = true) txs

/-- `get_transactions(address, incoming)`: query the transaction store on the
raw stored field (`to` for incoming, `from` for outgoing) against the
lowercased address, then normalize `from`, `to` and `txHash` of each result
to lowercase. -/
def get_transactions (env : Env) (address : String) (incoming : Bool) : List Tx :=
  let address := lowerStr address
  (env.txs.filter fun tx =>
      if (if incoming then tx.toAddr else tx.fromAddr) = address then true else false).map
    fun tx => { tx with fromAddr := lowerStr tx.fromAddr, toAddr := lowerStr tx.toAddr,
                        txHash := lowerStr tx.txHash }

/-- `Decimal(str(tx.get("value", 0) or "0"))`: raises on an unparsable value
(modelled by `none`), otherwise yields the parsed exact decimal. -/
def decimalOfValue : Option ℚ → Except Fault ℚ
  | none => .error .invalidDecimal
  | some q => .ok q

/-- Left-to-right accumulation of `sum_values`. -/
def sumValuesGo (acc : ℚ) : List Tx → Except Fault ℚ
  | [] => .ok acc
  | tx :: rest =>
    match decimalOfValue tx.value with
    | .error e => .error e
    | .ok v => sumValuesGo (acc + v) rest

/-- `sum_values(txs)`: sums `Decimal(str(tx.get("value", 0) or "0"))` over
the list; note there is no exception handling here, so one unparsable value
raises out of the whole sum. -/
def sum_values (txs : List Tx) : Except Fault ℚ := sumValuesGo 0 txs

/-- The earliest incoming timestamp: `parse_iso` of the `timeStamp` of the
first element of the incoming list sorted by timestamp key. -/
def earliestIncomingTs (incoming_txs : List Tx) : Option Nat :=
  match sortByTs incoming_txs with
  | [] => none
  | t :: _ => t.timeStamp

/-- The candidate outgoing transactions of the balance-limiting rule: those
whose timestamp key is at or after the earliest incoming timestamp; all of
them when that timestamp is unavailable (`if earliest_dt else outgoing_all`).
An unparsable outgoing timestamp keys to `datetime.min` and is therefore
excluded whenever `earliest_dt` is a parsed instant. -/
def candidateOutgoing (earliest_dt : Option Nat) (outgoing_all : List Tx) : List Tx :=
  match earliest_dt with
  | none => outgoing_all
  | some e => outgoing_all.filter fun tx => tsLeB (some e) tx.timeStamp

/-- The greedy balance-limiting loop over the sorted candidates: keep a
transaction while the running outgoing sum stays at or below the cap
(`total_incoming_amt`), and `break` at the first transaction that would
exceed it.  Each kept transaction's value goes through `Decimal(...)`
strictly. -/
def limitedOutgoingGo (cap : ℚ) : ℚ → List Tx → Except Fault (List Tx)
  | _, [] => .ok []
  | cumulative, tx :: rest =>
    match decimalOfValue tx.value with
    | .error e => .error e
    | .ok amt =>
      if cumulative + amt ≤ cap then
        match limitedOutgoingGo cap (cumulative + amt) rest with
        | .error e => .error e
        | .ok l => .ok (tx :: l)
      else .ok []

/-- The set of distinct non-empty destinations of the limited outgoing
transactions (`unique_outgoing_addresses`), accumulated in order. -/
def collectDests : List Tx → List String → List String
  | [], acc => acc
  | tx :: rest, acc =>
    if tx.toAddr = "" then collectDests rest acc
    else collectDests rest (sadd acc tx.toAddr)

/-- The incoming transaction hashes used to query the disperse collection
(`{tx["txHash"] for tx in incoming_txs if tx["txHash"]}`); hashes here are
already lowercased by `get_transactions`. -/
def collectHashes (txs : List Tx) : List String :=
  txs.filterMap fun tx => if tx.txHash = "" then none else some tx.txHash

/-- Normalization applied to each matched disperse row (lowercasing `from`,
`to`, `txHash`; `value`/`valueStr`/`tsStr` already carry the stringified
forms per the model conventions). -/
def normalizeRow (row : PayoutRow) : PayoutRow :=
  { row with fromAddr := lowerStr row.fromAddr, toAddr := lowerStr row.toAddr,
             txHash := lowerStr row.txHash }

/-- The composite dedup identifier
`f"{txh_db}|{rec_addr}|{value_str}|{timestamp_str}"`. -/
def payoutKey (row : PayoutRow) : String :=
  row.txHash ++ "|" ++ row.toAddr ++ "|" ++ row.valueStr ++ "|" ++ row.tsStr

/-- The deduplication loop over matched rows: rows with an empty recipient
are skipped outright; otherwise a row is kept iff its composite key has not
been seen before. -/
def dedupGo (seen : List String) : List PayoutRow → List PayoutRow
  | [] => []
  | row :: rest =>
    if row.toAddr = "" then dedupGo seen rest
    else if smem seen (payoutKey row) then dedupGo seen rest
    else row :: dedupGo (payoutKey row :: seen) rest

/-- `deduplicated_rows` as computed from the matched rows. -/
def dedupPayoutRows (rows : List PayoutRow) : List PayoutRow := dedupGo [] rows

/-- The recipient-processing loop of the disperse branch: per-recipient sums
of the non-zero deduplicated rows, partitioned into the return bucket
(recipient = return sink), discarded stop recipients, and the beneficiary
bucket, while recording unique transaction signatures
`f"{txh}_{ts}_{value_str}"` for rows with a hash and a timestamp. -/
def processRecipients (rows : List PayoutRow) (uq0 : UniqTxs) : Dict × Dict × UniqTxs :=
  rows.foldl
    (fun acc row =>
      let raw_amt := row.value.getD 0
      if raw_amt > 0 then
        let uq := if row.txHash = "" ∨ row.tsStr = "" then acc.2.2
                  else addUniqueTx acc.2.2 row.toAddr
                         (row.txHash ++ "_" ++ row.tsStr ++ "_" ++ row.valueStr)
        if row.toAddr = RETURN_ADDRESS then (acc.1, dadd acc.2.1 row.toAddr raw_amt, uq)
        else if smem STOP_ADDRESS row.toAddr then (acc.1, acc.2.1, uq)
        else (dadd acc.1 row.toAddr raw_amt, acc.2.1, uq)
      else acc)
    ([], [], uq0)

/-- Step 3 of the disperse branch for the beneficiary bucket: both
`beneficiaries[rec] = total` (an authoritative overwrite in either branch of
the conflict check) and `amount_received_map[rec] = total`. -/
def updateDisperseBeneficiaries (sums : Dict) (ben map0 : Dict) : Dict × Dict :=
  sums.foldl (fun acc kv => (dset acc.1 kv.1 kv.2, dset acc.2 kv.1 kv.2)) (ben, map0)

/-- Step 3 of the disperse branch for the return bucket:
`returned_amounts[rec] += total` and `amount_received_map[rec] = total`. -/
def updateDisperseReturns (sums : Dict) (ret map0 : Dict) : Dict × Dict :=
  sums.foldl (fun acc kv => (dadd acc.1 kv.1 kv.2, dset acc.2 kv.1 kv.2)) (ret, map0)

/-- Sum of the values of a dict (`sum(d.values())`). -/
def sumDictValues (d : Dict) : ℚ := d.foldl (fun acc kv => acc + kv.2) 0

/-- Merge of a child's returned beneficiaries in the ordinary-intermediary
loop: `for k, v in sub_ben.items(): beneficiaries[k] += v`, folded into the
caller's dict object.  In the aliased case the caller's object *is*
`sub_ben`, so the fold is applied to `sub_ben` itself, doubling every entry,
exactly as the live Python iteration does. -/
def mergeAddInto (d sub : Dict) : Dict :=
  sub.foldl (fun acc kv => dadd acc kv.1 kv.2) d

/-- Merge of a child's returned beneficiaries in the root loop: add only
keys that are absent or currently zero
(`if k not in beneficiaries or beneficiaries[k] == 0`). -/
def mergeRootInto (d sub : Dict) : Dict :=
  sub.foldl
    (fun acc kv =>
      if dmem acc kv.1 = true ∧ dgetD acc kv.1 ≠ 0 then acc
      else dadd acc kv.1 kv.2)
    d

/-- The mutable traversal state threaded through `trace_flow`, by contents.
Field names follow the Python locals. -/
structure TraceState where
  visited : List String
  beneficiaries : Dict
  intermediaries : Dict
  processed_disperse_payouts : List String
  amount_received_map : Dict
  recorded_edges : List (String × String)
  beneficiary_unique_txs : UniqTxs
  returned_amounts : Dict
deriving DecidableEq, Repr

/-- The fresh state created by the top-level call (all containers empty). -/
def initState : TraceState := ⟨[], [], [], [], [], [], [], []⟩

/-- A Python `for tx in txs:` loop whose body may raise, threading the
traversal state. -/
def foldSteps {σ : Type} (f : σ → Tx → Except Fault σ) : List Tx → σ → Except Fault σ
  | [], s => .ok s
  | tx :: rest, s =>
    match f s tx with
    | .error e => .error e
    | .ok s₁ => foldSteps f rest s₁

/-- One iteration of the root loop of `trace_flow` (`is_initial` case):
skip empty or already-visited destinations, parse the amount strictly,
record `amount_received_map`, the edge and `visited`, recurse (`rec` is the
recursive call at smaller fuel, receiving destination, amount and state),
then merge the returned beneficiaries with the only-if-absent-or-zero rule
into the caller's dict object — which is the child's returned dict itself
whenever the caller's dict was non-empty at call time. -/
def rootLoopStep (rec : String → ℚ → TraceState → Except Fault TraceState)
    (addr_l : String) (s : TraceState) (tx : Tx) : Except Fault TraceState :=
  let to_addr := tx.toAddr
  if to_addr = "" ∨ smem s.visited to_addr = true then .ok s
  else
    match decimalOfValue tx.value with
    | .error e => .error e
    | .ok amt_sent =>
      let s := { s with
        amount_received_map := dset s.amount_received_map to_addr amt_sent,
        recorded_edges := eadd s.recorded_edges (addr_l, to_addr),
        visited := sadd s.visited to_addr }
      let benAtCall := s.beneficiaries
      match rec to_addr amt_sent s with
      | .error e => .error e
      | .ok s₁ =>
        let newBen :=
          mergeRootInto (if benAtCall.isEmpty then benAtCall else s₁.beneficiaries)
            s₁.beneficiaries
        .ok { s₁ with beneficiaries := newBen }

/-- One iteration of the ordinary-intermediary loop of `trace_flow`: skip
empty or already-visited destinations, parse the amount strictly, mark
visited, recurse, then merge the returned beneficiaries additively into the
caller's dict object — again the child's returned dict itself in the aliased
(non-empty at call time) case, which doubles every entry. -/
def interLoopStep (rec : String → ℚ → TraceState → Except Fault TraceState)
    (s : TraceState) (tx : Tx) : Except Fault TraceState :=
  let to_addr := tx.toAddr
  if to_addr = "" ∨ smem s.visited to_addr = true then .ok s
  else
    match decimalOfValue tx.value with
    | .error e => .error e
    | .ok raw_amt_sent =>
      let s := { s with visited := sadd s.visited to_addr }
      let benAtCall := s.beneficiaries
      match rec to_addr raw_amt_sent s with
      | .error e => .error e
      | .ok s₁ =>
        let newBen :=
          mergeAddInto (if benAtCall.isEmpty then benAtCall else s₁.beneficiaries)
            s₁.beneficiaries
        .ok { s₁ with beneficiaries := newBen }

/-- The disperse-contract branch of `trace_flow`: match payout rows of this
sender against the incoming hashes, normalize, deduplicate on the composite
key, bucket the non-zero recipients, overwrite beneficiary entries, add
return-sink entries, and credit the whole dispersed total to this account as
an intermediary.  No recursion into recipients, and no exception escapes
this branch. -/
def disperseBranch (env : Env) (addr_l : String) (incoming_txs : List Tx)
    (s : TraceState) : TraceState :=
  let incoming_hashes := collectHashes incoming_txs
  let matched_rows :=
    (if incoming_hashes.isEmpty then []
     else env.disperseRows.filter fun row =>
       if row.fromAddr = addr_l then smem incoming_hashes row.txHash else false).map
      normalizeRow
  let deduplicated_rows := dedupPayoutRows matched_rows
  let sums := processRecipients deduplicated_rows s.beneficiary_unique_txs
  let benMap := updateDisperseBeneficiaries sums.1 s.beneficiaries s.amount_received_map
  let retMap := updateDisperseReturns sums.2.1 s.returned_amounts benMap.2
  let total_dispersed := sumDictValues sums.1 + sumDictValues sums.2.1
  { s with
    beneficiaries := benMap.1,
    returned_amounts := retMap.1,
    amount_received_map := retMap.2,
    beneficiary_unique_txs := sums.2.2,
    intermediaries := dadd s.intermediaries addr_l total_dispersed }

/-- The core traversal `trace_flow`, one Lean branch per Python branch, in
source order: stop addresses, the return sink, the root loop, the
no-incoming case, the disperse branch, and the ordinary
intermediary/beneficiary classification.  The first argument after `env` is
recursion fuel (the Python recursion is bounded by the `visited` set; any
fuel larger than the number of reachable accounts is enough).
`_parent_incoming_amt` mirrors the dead `parent_incoming_amt` parameter. -/
def trace_flow (env : Env) :
    Nat → String → Option ℚ → Option ℚ → Bool → TraceState → Except Fault TraceState
  | 0, _, _, _, _, _ => .error .fuelExhausted
  | Nat.succ fuel, address, _parent_incoming_amt, actual_amount_received, is_initial, s0 =>
    let addr_l := lowerStr address
    if addr_l = "" ∨ smem STOP_ADDRESS addr_l = true then .ok s0
    else if addr_l = RETURN_ADDRESS then
      let actual_amt := actual_amount_received.getD 0
      .ok { s0 with
        returned_amounts := dadd s0.returned_amounts addr_l actual_amt,
        amount_received_map := dset s0.amount_received_map addr_l actual_amt }
    else if is_initial then
      let outgoing_all := get_transactions env addr_l false
      foldSteps
        (rootLoopStep (fun a q st => trace_flow env fuel a (some q) (some q) false st) addr_l)
        (sortByTs outgoing_all) s0
    else
      let incoming_txs := get_transactions env addr_l true
      let actual_amt := actual_amount_received.getD 0
      let s := { s0 with amount_received_map := dset s0.amount_received_map addr_l actual_amt }
      if incoming_txs.isEmpty then
        .ok { s with beneficiaries := dadd s.beneficiaries addr_l actual_amt }
      else
        let earliest_dt := earliestIncomingTs incoming_txs
        match sum_values incoming_txs with
        | .error e => .error e
        | .ok total_incoming_amt =>
          let outgoing_all := get_transactions env addr_l false
          if env.isDisperse addr_l then
            .ok (disperseBranch env addr_l incoming_txs s)
          else
            let outgoing_after := candidateOutgoing earliest_dt outgoing_all
            let outgoing_after_sorted := sortByTs outgoing_after
            match limitedOutgoingGo total_incoming_amt 0 outgoing_after_sorted with
            | .error e => .error e
            | .ok limited_outgoing =>
              match sum_values limited_outgoing with
              | .error e => .error e
              | .ok total_outgoing_amt =>
                let unique_outgoing_addresses := collectDests limited_outgoing []
                if total_outgoing_amt > 500 ∨ unique_outgoing_addresses.length > 4 then
                  let s := { s with
                    intermediaries := dadd s.intermediaries addr_l total_incoming_amt }
                  foldSteps
                    (interLoopStep
                      (fun a q st => trace_flow env fuel a (some q) (some q) false st))
                    limited_outgoing s
                else
                  .ok { s with beneficiaries := dadd s.beneficiaries addr_l actual_amt }

/-- The reconciliation loop of `find_beneficiaries`:
`for addr in list(beneficiaries): if addr in intermediaries: del ...`. -/
def removeIntermediariesLoop : List String → Dict → Dict → Dict
  | [], ben, _ => ben
  | a :: rest, ben, inter =>
    removeIntermediariesLoop rest (if dmem inter a = true then ddel ben a else ben) inter

/-- `find_beneficiaries`: run the root trace, then delete every beneficiary
key that also appears among the intermediaries; returns
`(beneficiaries, intermediaries, returned_amounts)`. -/
def find_beneficiaries (env : Env) (fuel : Nat) (protocol_recipient : String) :
    Except Fault (Dict × Dict × Dict) :=
  match trace_flow env fuel (lowerStr protocol_recipient) none none true initState with
  | .error e => .error e
  | .ok st =>
    .ok (removeIntermediariesLoop (st.beneficiaries.map Prod.fst) st.beneficiaries
           st.intermediaries,
         st.intermediaries, st.returned_amounts)

/-- The attributed (balance-limited) outgoing transactions of a non-root,
non-disperse account, exactly as the ordinary-intermediary branch of
`trace_flow` computes them: candidates at/after the earliest incoming
timestamp, sorted by timestamp, greedily truncated at the total incoming
value. -/
def attributedOutgoing (env : Env) (addr_l : String) : Except Fault (List Tx) :=
  let incoming_txs := get_transactions env addr_l true
  match sum_values incoming_txs with
  | .error e => .error e
  | .ok total_incoming_amt =>
    limitedOutgoingGo total_incoming_amt 0
      (sortByTs (candidateOutgoing (earliestIncomingTs incoming_txs)
        (get_transactions env addr_l false)))

/-- Modelled from the spec's words, for comparison with `limitedOutgoingGo`:
a list of transactions has all its running value sums (starting from `cum`)
at or below `cap`, with every value parsable.  `prefixSumsWithin cap 0 l`
says the running sum of `l` never exceeds the cap. -/
def prefixSumsWithin (cap : ℚ) : ℚ → List Tx → Bool
  | _, [] => true
  | cum, tx :: rest =>
    match tx.value with
    | none => false
    | some v => if cum + v ≤ cap then prefixSumsWithin cap (cum + v) rest else false

/-- The seen-key set after the dedup loop has processed a list of rows
(used to reason about `dedupGo`). -/
def seenAfter (seen : List String) : List PayoutRow → List String
  | [] => seen
  | row :: rest =>
    if row.toAddr = "" then seenAfter seen rest
    else if smem seen (payoutKey row) then seenAfter seen rest
    else seenAfter (payoutKey row :: seen) rest

/-- Prefix test on character lists (used for substring containment). -/
def startsWithChars : List Char → List Char → Bool
  | [], _ => true
  | _ :: _, [] => false
  | c :: cs, d :: ds => if c = d then startsWithChars cs ds else false

/-- Substring containment on character lists. -/
def containsChars (needle : List Char) : List Char → Bool
  | [] => needle.isEmpty
  | c :: rest =>
    if startsWithChars needle (c :: rest) then true else containsChars needle rest

/-- Python's `needle in hay` on strings. -/
def containsSubstr (hay needle : String) : Bool := containsChars needle.data hay.data

/-- One entry of a parsed contract ABI; `ftype`/`fname` model the JSON keys
`type`/`name` of `f.get("type")`/`f.get("name")`. -/
structure AbiEntry where
  ftype : String
  fname : String
deriving DecidableEq, Repr

/-- Verified-source metadata as returned by `get_verified_source` (already a
successful lookup): the contract name, and the parsed ABI (`none` when
`json.loads` of the ABI string raises `JSONDecodeError`). -/
structure SourceInfo where
  contractName : String
  abi : Option (List AbiEntry)
deriving DecidableEq, Repr

/-- The chain-data collaborators consulted by `is_disperse_contract`.
`toChecksumAddress` is `none` when `Web3.to_checksum_address` raises;
`getCode` is an RPC call that can fail in transport (`Except.error`);
`getStorageImpl` packages `get_storage_at` plus the checksum extraction of
the stored implementation address inside `resolve_eip1967_implementation`
(`Except.error` when any of that raises); `getVerifiedSource` is
`get_verified_source`, which swallows every failure into `none`. -/
structure ChainService where
  toChecksumAddress : String → Option String
  getCode : String → Except Unit String
  getStorageImpl : String → Except Unit String
  getVerifiedSource : String → Option SourceInfo

/-- The all-zero implementation address (`int(impl_addr, 16) != 0` fails
exactly on it). -/
def ZERO_ADDRESS : String := "0x0000000000000000000000000000000000000000"

/-- `resolve_eip1967_implementation`: read the proxy-implementation slot,
return the implementation address when it is nonzero and has code; every
exception inside (including a failing `get_code`) is caught and yields
`None`. -/
def resolve_eip1967_implementation (svc : ChainService) (proxy_addr : String) :
    Option String :=
  match svc.getStorageImpl proxy_addr with
  | .error _ => none
  | .ok impl_addr =>
    if impl_addr ≠ ZERO_ADDRESS then
      match svc.getCode impl_addr with
      | .error _ => none
      | .ok code => if code ≠ "" then some impl_addr else none
    else none

/-- The fixed disperse-style function names looked for in the ABI. -/
def disperseFunctionNames : List String :=
  ["disperseEther", "disperseToken", "disperseTokenSimple"]

/-- `is_disperse_contract`.  Note that the checksum conversion is wrapped in
`try/except` (returning `False`), and that `resolve_eip1967_implementation`
and `get_verified_source` swallow their own failures, but the
`w3.eth.get_code(checksum)` call sits outside any handler, so a transport
failure there propagates to the caller (`Except.error`). -/
def is_disperse_contract (svc : ChainService) (address : String) : Except Unit Bool :=
  match svc.toChecksumAddress address with
  | none => .ok false
  | some checksum =>
    match svc.getCode checksum with
    | .error e => .error e
    | .ok code =>
      if code = "" then .ok false
      else
        let target_addr := (resolve_eip1967_implementation svc checksum).getD checksum
        match svc.getVerifiedSource target_addr with
        | none => .ok false
        | some src_info =>
          if containsSubstr (lowerStr src_info.contractName) ("disperse") then .ok true
          else
            match src_info.abi with
            | none => .ok false
            | some abi =>
              .ok (((abi.filter fun f => if f.ftype = ("function") then true else false).map
                      AbiEntry.fname).any fun n => smem disperseFunctionNames n)

/-- The non-membership invariant used for the return sink: a state whose
beneficiaries and intermediaries do not mention the sink. -/
def NoRet (st : TraceState) : Prop :=
  dmem st.beneficiaries RETURN_ADDRESS = false ∧
    dmem st.intermediaries RETURN_ADDRESS = false

/-- The timestamp-key comparison is total (needed for sortedness of the
stable sort). -/
instance instTsRelTotal : IsTotal Tx fun a b => tsLeB a.timeStamp b.timeStamp = true :=
  ⟨fun a b => by
    cases a.timeStamp <;> cases b.timeStamp <;> simp [tsLeB] <;> omega⟩

/-- The timestamp-key comparison is transitive. -/
instance instTsRelTrans : IsTrans Tx fun a b => tsLeB a.timeStamp b.timeStamp = true :=
  ⟨fun a b c => by
    cases a.timeStamp <;> cases b.timeStamp <;> cases c.timeStamp <;>
      simp [tsLeB] <;> omega⟩

/-- Modelled from the spec: the final beneficiaries and intermediaries
mappings have disjoint key sets. -/
def disjointKeys (b i : Dict) : Bool := b.all fun kv => !dmem i kv.1

/-- Concrete transaction set for the literal scenario of claim C1:
root `a` sends 1000 to `b`, and `b` sends 200 to each of `c`, `d`, `e`,
`f`, `g`. -/
def envClaim1 : Env :=
  { txs :=
      [⟨"a", "b", some 1000, some 1, "h1"⟩,
       ⟨"b", "c", some 200, some 2, "h2"⟩,
       ⟨"b", "d", some 200, some 3, "h3"⟩,
       ⟨"b", "e", some 200, some 4, "h4"⟩,
       ⟨"b", "f", some 200, some 5, "h5"⟩,
       ⟨"b", "g", some 200, some 6, "h6"⟩],
    disperseRows := [], isDisperse := fun _ => false }

/-- Concrete environment for claim C2's witness: `b` receives 500 and
forwards four transactions of 125 each. -/
def envClaim2 : Env :=
  { txs :=
      [⟨"a", "b", some 500, some 1, "h1"⟩,
       ⟨"b", "c", some 125, some 2, "h2"⟩,
       ⟨"b", "d", some 125, some 3, "h3"⟩,
       ⟨"b", "e", some 125, some 4, "h4"⟩,
       ⟨"b", "f", some 125, some 5, "h5"⟩],
    disperseRows := [], isDisperse := fun _ => false }

/-- Concrete environment for claim C3's witness: `b` receives 500 and
forwards exactly 500 to exactly 4 distinct destinations. -/
def envClaim3 : Env :=
  { txs :=
      [⟨"a", "b", some 500, some 1, "h1"⟩,
       ⟨"b", "c", some 125, some 2, "h2"⟩,
       ⟨"b", "d", some 125, some 3, "h3"⟩,
       ⟨"b", "e", some 125, some 4, "h4"⟩,
       ⟨"b", "f", some 125, some 5, "h5"⟩],
    disperseRows := [], isDisperse := fun _ => false }

/-- Concrete environment refuting the exact-sum half of claim C4: `b` is an
intermediary that sends two separate 300 transactions to the return sink
(plus 400 to `c`); the second transaction to the sink is skipped by the
`visited` check. -/
def envClaim4 : Env :=
  { txs :=
      [⟨"a", "b", some 1000, some 1, "h1"⟩,
       ⟨"b", RETURN_ADDRESS, some 300, some 2, "h2"⟩,
       ⟨"b", RETURN_ADDRESS, some 300, some 3, "h3"⟩,
       ⟨"b", "c", some 400, some 4, "h4"⟩],
    disperseRows := [], isDisperse := fun _ => false }

/-- Concrete environment for claim C5's witness. -/
def envClaim5 : Env :=
  { txs := [⟨"a", "b", some 100, some 1, "h1"⟩],
    disperseRows := [], isDisperse := fun _ => false }

/-- A concrete payout row for claim C6's witness. -/
def rowClaim6 : PayoutRow := ⟨"x", "y", "h9", some 400, "400", "7"⟩

/-- Chain service on which the unprotected `get_code` call fails in
transport: checksum conversion succeeds, the code lookup raises. -/
def svcClaim7fail : ChainService :=
  { toChecksumAddress := fun a => some a,
    getCode := fun _ => .error (),
    getStorageImpl := fun _ => .error (),
    getVerifiedSource := fun _ => none }

/-- Chain service on which the code lookup succeeds but the verified-source
lookup fails, exercising the fail-open path. -/
def svcClaim7open : ChainService :=
  { toChecksumAddress := fun a => some a,
    getCode := fun _ => .ok ("6080"),
    getStorageImpl := fun _ => .error (),
    getVerifiedSource := fun _ => none }

/-- Concrete environment for claim C8: the root transaction parses, but a
second incoming transaction of `b` has an unparsable value, so
`sum_values` over `b`'s incoming transactions raises. -/
def envClaim8 : Env :=
  { txs := [⟨"a", "b", some 100, some 1, "h1"⟩,
            ⟨"z", "b", none, some 2, "h2"⟩],
    disperseRows := [], isDisperse := fun _ => false }

/-- Concrete environment for claim C9's witness. -/
def envClaim9 : Env :=
  { txs := [⟨"a", "b", some 100, some 1, "h1"⟩],
    disperseRows := [], isDisperse := fun _ => false }

/-- Concrete environment for claim C10: the return sink first receives 300
directly from intermediary `b`, then 400 as a disperse payout of `x`;
`returned_amounts` accumulates to 700 while `amount_received_map` keeps only
the last arrival's 400. -/
def envClaim10 : Env :=
  { txs :=
      [⟨"a", "b", some 1000, some 1, "h1"⟩,
       ⟨"b", RETURN_ADDRESS, some 300, some 2, "h2"⟩,
       ⟨"b", "c", some 300, some 3, "h3"⟩,
       ⟨"a", "x", some 1000, some 4, "h4"⟩],
    disperseRows := [⟨"x", RETURN_ADDRESS, "h4", some 400, "400", "5"⟩],
    isDisperse := fun a => if a = ("x") then true else false }

/-! ### Helper lemmas about the dictionary operations -/

theorem dmem_cons_head (kv : String × ℚ) (tl : Dict) (x : String) (h : kv.1 = x) :
    dmem (kv :: tl) x = true := by
  simp [dmem, dfind, h]

theorem dmem_cons_tail (kv : String × ℚ) (tl : Dict) (x : String)
    (h : dmem tl x = true) : dmem (kv :: tl) x = true := by
  by_cases hx : kv.1 = x
  · simp [dmem, dfind, hx]
  · simpa [dmem, dfind, hx] using h

theorem mem_imp_dmem : ∀ (d : Dict) (kv : String × ℚ), kv ∈ d → dmem d kv.1 = true := by
  intro d kv h
  induction d with
  | nil => cases h
  | cons hd tl ih =>
    rcases List.mem_cons.mp h with h | h
    · subst h; exact dmem_cons_head kv tl kv.1 rfl
    · exact dmem_cons_tail hd tl kv.1 (ih h)

theorem dfind_dset (d : Dict) (k : String) (v : ℚ) (x : String) :
    dfind (dset d k v) x = if x = k then some v else dfind d x := by
  induction d with
  | nil =>
    by_cases h : k = x
    · simp [dset, dfind, h]
    · have h' : ¬(x = k) := fun hh => h hh.symm
      simp [dset, dfind, h, h']
  | cons hd tl ih =>
    by_cases h : hd.1 = k
    · subst h
      simp only [dset, if_pos rfl]
      by_cases hx : hd.1 = x
      · have hx' : x = hd.1 := hx.symm
        simp [dfind, hx']
      · have hx' : ¬(x = hd.1) := fun hh => hx hh.symm
        simp [dfind, hx, hx']
    · simp only [dset, if_neg h]
      by_cases hx : hd.1 = x
      · have hxk : ¬(x = k) := fun hh => h (hx.trans hh)
        simp [dfind, hx, hxk]
      · simp [dfind, hx, ih]

theorem dmem_dset_iff (d : Dict) (k : String) (v : ℚ) (x : String) :
    dmem (dset d k v) x = true ↔ (x = k ∨ dmem d x = true) := by
  unfold dmem
  rw [dfind_dset]
  by_cases h : x = k <;> simp [h]

theorem dmem_dadd_iff (d : Dict) (k : String) (v : ℚ) (x : String) :
    dmem (dadd d k v) x = true ↔ (x = k ∨ dmem d x = true) := by
  simpa [dadd] using dmem_dset_iff d k (dgetD d k + v) x

theorem dmem_dadd_self (d : Dict) (k : String) (v : ℚ) :
    dmem (dadd d k v) k = true := (dmem_dadd_iff d k v k).mpr (Or.inl rfl)

/-- Membership after folding a per-entry dict update can only come from the
base dict or from the keys of the folded entries. -/
theorem dmem_dictFoldl_imp (step : Dict → (String × ℚ) → Dict)
    (hstep : ∀ acc kv x, dmem (step acc kv) x = true → dmem acc x = true ∨ x = kv.1) :
    ∀ (sub d : Dict) (x : String), dmem (sub.foldl step d) x = true →
      dmem d x = true ∨ dmem sub x = true := by
  intro sub
  induction sub with
  | nil => intro d x h; exact Or.inl h
  | cons kv rest ih =>
    intro d x h
    rcases ih (step d kv) x h with h' | h'
    · rcases hstep d kv x h' with h'' | h''
      · exact Or.inl h''
      · right; subst h''; exact dmem_cons_head kv rest kv.1 rfl
    · exact Or.inr (dmem_cons_tail kv rest x h')

theorem dmem_mergeAddInto_imp (d sub : Dict) (x : String)
    (h : dmem (mergeAddInto d sub) x = true) :
    dmem d x = true ∨ dmem sub x = true := by
  refine dmem_dictFoldl_imp _ ?_ sub d x h
  intro acc kv y hy
  rcases (dmem_dadd_iff acc kv.1 kv.2 y).mp hy with h' | h'
  · exact Or.inr h'
  · exact Or.inl h'

theorem dmem_mergeRootInto_imp (d sub : Dict) (x : String)
    (h : dmem (mergeRootInto d sub) x = true) :
    dmem d x = true ∨ dmem sub x = true := by
  refine dmem_dictFoldl_imp _ ?_ sub d x h
  intro acc kv y hy
  by_cases hc : dmem acc kv.1 = true ∧ dgetD acc kv.1 ≠ 0
  · rw [if_pos hc] at hy; exact Or.inl hy
  · rw [if_neg hc] at hy
    rcases (dmem_dadd_iff acc kv.1 kv.2 y).mp hy with h' | h'
    · exact Or.inr h'
    · exact Or.inl h'

theorem dmem_foldl_dset_imp (sub d : Dict) (x : String)
    (h : dmem (sub.foldl (fun acc kv => dset acc kv.1 kv.2) d) x = true) :
    dmem d x = true ∨ dmem sub x = true := by
  refine dmem_dictFoldl_imp _ ?_ sub d x h
  intro acc kv y hy
  rcases (dmem_dset_iff acc kv.1 kv.2 y).mp hy with h' | h'
  · exact Or.inr h'
  · exact Or.inl h'

/-! ### Lemmas about the loops and branch helpers of `trace_flow` -/

/-- A property preserved by every iteration of a `for` loop is preserved by
the whole loop. -/
theorem foldSteps_preserve {σ : Type} (P : σ → Prop) (f : σ → Tx → Except Fault σ)
    (hf : ∀ s tx s', f s tx = .ok s' → P s → P s') :
    ∀ (l : List Tx) (s s' : σ), foldSteps f l s = .ok s' → P s → P s' := by
  intro l
  induction l with
  | nil =>
    intro s s' h hp
    simp only [foldSteps] at h
    cases h; exact hp
  | cons tx rest ih =>
    intro s s' h hp
    simp only [foldSteps] at h
    cases hfx : f s tx with
    | error e => rw [hfx] at h; cases h
    | ok s₁ => rw [hfx] at h; exact ih s₁ s' h (hf s tx s₁ hfx hp)

/-- The first component of the disperse beneficiary update is a plain fold
of dict assignments. -/
theorem updateDisperseBeneficiaries_fst (sums : Dict) :
    ∀ (b m : Dict), (updateDisperseBeneficiaries sums b m).1 =
      sums.foldl (fun acc kv => dset acc kv.1 kv.2) b := by
  unfold updateDisperseBeneficiaries
  induction sums with
  | nil => intro b m; rfl
  | cons kv rest ih => intro b m; exact ih (dset b kv.1 kv.2) (dset m kv.1 kv.2)

/-- The beneficiary bucket of `processRecipients` never contains the return
sink (recipients equal to the sink are routed to the return bucket). -/
theorem processRecipients_fst_no_ret (rows : List PayoutRow) (uq0 : UniqTxs) :
    dmem (processRecipients rows uq0).1 RETURN_ADDRESS = false := by
  unfold processRecipients
  suffices h : ∀ (acc : Dict × Dict × UniqTxs), dmem acc.1 RETURN_ADDRESS = false →
      dmem (rows.foldl
        (fun acc row =>
          let raw_amt := row.value.getD 0
          if raw_amt > 0 then
            let uq := if row.txHash = "" ∨ row.tsStr = "" then acc.2.2
                      else addUniqueTx acc.2.2 row.toAddr
                             (row.txHash ++ "_" ++ row.tsStr ++ "_" ++ row.valueStr)
            if row.toAddr = RETURN_ADDRESS then (acc.1, dadd acc.2.1 row.toAddr raw_amt, uq)
            else if smem STOP_ADDRESS row.toAddr then (acc.1, acc.2.1, uq)
            else (dadd acc.1 row.toAddr raw_amt, acc.2.1, uq)
          else acc) acc).1 RETURN_ADDRESS = false by
    exact h ([], [], uq0) rfl
  induction rows with
  | nil => intro acc h; exact h
  | cons row rest ih =>
    intro acc h
    simp only [List.foldl_cons]
    apply ih
    by_cases h0 : row.value.getD 0 > 0
    · rw [if_pos h0]
      by_cases hret : row.toAddr = RETURN_ADDRESS
      · rw [if_pos hret]; exact h
      · rw [if_neg hret]
        by_cases hstop : smem STOP_ADDRESS row.toAddr = true
        · rw [if_pos hstop]; exact h
        · rw [if_neg hstop]
          show dmem (dadd acc.1 row.toAddr _) RETURN_ADDRESS = false
          rcases hmem : dmem (dadd acc.1 row.toAddr (row.value.getD 0)) RETURN_ADDRESS with _ | _
          · rfl
          · rcases (dmem_dadd_iff acc.1 row.toAddr (row.value.getD 0)
                RETURN_ADDRESS).mp hmem with h' | h'
            · exact absurd h'.symm hret
            · rw [h'] at h; cases h
    · rw [if_neg h0]; exact h

/-! ### Characterization of the greedy balance-limiting loop -/

theorem limitedGo_take (cap : ℚ) :
    ∀ (xs : List Tx) (cum : ℚ) (l : List Tx),
      limitedOutgoingGo cap cum xs = .ok l → l = xs.take l.length := by
  intro xs
  induction xs with
  | nil =>
    intro cum l h
    simp only [limitedOutgoingGo] at h
    cases h; rfl
  | cons tx rest ih =>
    intro cum l h
    simp only [limitedOutgoingGo] at h
    cases hv : decimalOfValue tx.value with
    | error e => simp only [hv] at h; cases h
    | ok amt =>
      simp only [hv] at h
      by_cases hle : cum + amt ≤ cap
      · rw [if_pos hle] at h
        cases hrec : limitedOutgoingGo cap (cum + amt) rest with
        | error e => simp only [hrec] at h; cases h
        | ok l' =>
          simp only [hrec] at h
          cases h
          simpa [List.length_cons, List.take_succ_cons] using
            congrArg (List.cons tx) (ih (cum + amt) l' hrec)
      · rw [if_neg hle] at h
        cases h; rfl

theorem limitedGo_within (cap : ℚ) :
    ∀ (xs : List Tx) (cum : ℚ) (l : List Tx),
      limitedOutgoingGo cap cum xs = .ok l → prefixSumsWithin cap cum l = true := by
  intro xs
  induction xs with
  | nil =>
    intro cum l h
    simp only [limitedOutgoingGo] at h
    cases h; rfl
  | cons tx rest ih =>
    intro cum l h
    simp only [limitedOutgoingGo] at h
    cases hv : decimalOfValue tx.value with
    | error e => simp only [hv] at h; cases h
    | ok amt =>
      simp only [hv] at h
      have hval : tx.value = some amt := by
        cases hv' : tx.value with
        | none => rw [hv'] at hv; cases hv
        | some q => rw [hv'] at hv; cases hv; rfl
      by_cases hle : cum + amt ≤ cap
      · rw [if_pos hle] at h
        cases hrec : limitedOutgoingGo cap (cum + amt) rest with
        | error e => simp only [hrec] at h; cases h
        | ok l' =>
          simp only [hrec] at h
          cases h
          simpa [prefixSumsWithin, hval, hle] using ih (cum + amt) l' hrec
      · rw [if_neg hle] at h
        cases h; rfl

theorem limitedGo_maximal (cap : ℚ) :
    ∀ (xs : List Tx) (cum : ℚ) (l : List Tx),
      limitedOutgoingGo cap cum xs = .ok l → l.length < xs.length →
      prefixSumsWithin cap cum (xs.take (l.length + 1)) = false := by
  intro xs
  induction xs with
  | nil =>
    intro cum l h hlt
    simp only [limitedOutgoingGo] at h
    cases h; cases hlt
  | cons tx rest ih =>
    intro cum l h hlt
    simp only [limitedOutgoingGo] at h
    cases hv : decimalOfValue tx.value with
    | error e => simp only [hv] at h; cases h
    | ok amt =>
      simp only [hv] at h
      have hval : tx.value = some amt := by
        cases hv' : tx.value with
        | none => rw [hv'] at hv; cases hv
        | some q => rw [hv'] at hv; cases hv; rfl
      by_cases hle : cum + amt ≤ cap
      · rw [if_pos hle] at h
        cases hrec : limitedOutgoingGo cap (cum + amt) rest with
        | error e => simp only [hrec] at h; cases h
        | ok l' =>
          simp only [hrec] at h
          cases h
          have hlt' : l'.length < rest.length := by
            simpa [List.length_cons] using hlt
          simpa [prefixSumsWithin, hval, hle] using ih (cum + amt) l' hrec hlt'
      · rw [if_neg hle] at h
        cases h
        simp [prefixSumsWithin, hval, hle]

/-! ### Lemmas about the payout deduplication -/

theorem smem_cons (a : String) (rest : List String) (x : String) :
    smem (a :: rest) x = true ↔ (a = x ∨ smem rest x = true) := by
  by_cases h : a = x <;> simp [smem, h]

theorem smem_seenAfter_mono :
    ∀ (l : List PayoutRow) (seen : List String) (x : String),
      smem seen x = true → smem (seenAfter seen l) x = true := by
  intro l
  induction l with
  | nil => intro seen x h; exact h
  | cons row rest ih =>
    intro seen x h
    by_cases h0 : row.toAddr = ""
    · simpa [seenAfter, h0] using ih seen x h
    · by_cases h1 : smem seen (payoutKey row) = true
      · simpa [seenAfter, h0, h1] using ih seen x h
      · simp only [seenAfter, if_neg h0, if_neg h1]
        exact ih _ x ((smem_cons _ seen x).mpr (Or.inr h))

theorem payoutKey_mem_seenAfter :
    ∀ (l : List PayoutRow) (seen : List String) (r : PayoutRow),
      r ∈ l → r.toAddr ≠ "" → smem (seenAfter seen l) (payoutKey r) = true := by
  intro l
  induction l with
  | nil => intro seen r hr; cases hr
  | cons row rest ih =>
    intro seen r hr hne
    rcases List.mem_cons.mp hr with hr | hr
    · subst hr
      simp only [seenAfter, if_neg hne]
      by_cases h1 : smem seen (payoutKey r) = true
      · rw [if_pos h1]; exact smem_seenAfter_mono rest seen _ h1
      · rw [if_neg h1]
        exact smem_seenAfter_mono rest _ _ ((smem_cons _ seen _).mpr (Or.inl rfl))
    · by_cases h0 : row.toAddr = ""
      · simpa [seenAfter, h0] using ih seen r hr hne
      · by_cases h1 : smem seen (payoutKey row) = true
        · simpa [seenAfter, h0, h1] using ih seen r hr hne
        · simp only [seenAfter, if_neg h0, if_neg h1]
          exact ih _ r hr hne

theorem dedupGo_append :
    ∀ (l₁ l₂ : List PayoutRow) (seen : List String),
      dedupGo seen (l₁ ++ l₂) = dedupGo seen l₁ ++ dedupGo (seenAfter seen l₁) l₂ := by
  intro l₁
  induction l₁ with
  | nil => intro l₂ seen; simp [dedupGo, seenAfter]
  | cons row rest ih =>
    intro l₂ seen
    by_cases h0 : row.toAddr = ""
    · simpa [dedupGo, seenAfter, h0] using ih l₂ seen
    · by_cases h1 : smem seen (payoutKey row) = true
      · simpa [dedupGo, seenAfter, h0, h1] using ih l₂ seen
      · simpa [dedupGo, seenAfter, h0, h1] using ih l₂ (payoutKey row :: seen)

/-- Keys of the deduplicated list are pairwise distinct and disjoint from
the already-seen keys. -/
theorem dedupGo_keys_nodup :
    ∀ (l : List PayoutRow) (seen : List String),
      ((dedupGo seen l).map payoutKey).Nodup ∧
        ∀ x ∈ (dedupGo seen l).map payoutKey, smem seen x = false := by
  intro l
  induction l with
  | nil => intro seen; simp [dedupGo]
  | cons row rest ih =>
    intro seen
    by_cases h0 : row.toAddr = ""
    · simpa [dedupGo, h0] using ih seen
    · by_cases h1 : smem seen (payoutKey row) = true
      · simpa [dedupGo, h0, h1] using ih seen
      · simp only [dedupGo, if_neg h0, if_neg h1, List.map_cons, List.nodup_cons]
        rcases ih (payoutKey row :: seen) with ⟨hnd, hout⟩
        refine ⟨⟨?_, hnd⟩, ?_⟩
        · intro hmem
          have hfalse := hout _ hmem
          have htrue : smem (payoutKey row :: seen) (payoutKey row) = true :=
            (smem_cons _ seen _).mpr (Or.inl rfl)
          rw [hfalse] at htrue
          cases htrue
        · intro x hx
          rcases List.mem_cons.mp hx with hx | hx
          · subst hx
            cases hsv : smem seen (payoutKey row)
            · rfl
            · exact absurd hsv h1
          · cases hs : smem seen x
            · rfl
            · have htrue : smem (payoutKey row :: seen) x = true :=
                (smem_cons _ seen x).mpr (Or.inr hs)
              rw [hout x hx] at htrue
              cases htrue

/-! ### Lemmas about the reconciliation loop -/

theorem ddel_append_keys_ne (a : String) :
    ∀ (pre d : Dict), (∀ kv ∈ pre, kv.1 ≠ a) → ddel (pre ++ d) a = pre ++ ddel d a := by
  intro pre
  induction pre with
  | nil => intro d _; rfl
  | cons kv rest ih =>
    intro d hpre
    have hne : ¬(kv.1 = a) := hpre kv (List.mem_cons_self kv rest)
    simp only [List.cons_append, ddel, if_neg hne, List.append_eq]
    rw [ih d fun kv' h => hpre kv' (List.mem_cons_of_mem kv h)]

/-- The reconciliation loop, driven by the (current) key list of the
beneficiaries dict, computes exactly the filter that drops every key present
among the intermediaries. -/
theorem removeLoop_filter :
    ∀ (ben pre inter : Dict), (∀ kv ∈ pre, dmem inter kv.1 = false) →
      removeIntermediariesLoop (ben.map Prod.fst) (pre ++ ben) inter =
        pre ++ ben.filter fun kv => !dmem inter kv.1 := by
  intro ben
  induction ben with
  | nil => intro pre inter _; simp [removeIntermediariesLoop]
  | cons kv rest ih =>
    intro pre inter hpre
    simp only [List.map_cons, removeIntermediariesLoop]
    by_cases hmem : dmem inter kv.1 = true
    case pos =>
      rw [if_pos hmem]
      have hkeys : ∀ kv' ∈ pre, kv'.1 ≠ kv.1 := by
        intro kv' h heq
        have := hpre kv' h
        rw [heq, hmem] at this
        cases this
      rw [ddel_append_keys_ne kv.1 pre (kv :: rest) hkeys]
      have hhead : ddel (kv :: rest) kv.1 = rest := by
        simp [ddel]
      rw [hhead, ih pre inter hpre]
      simp [List.filter_cons, hmem]
    case neg =>
      have hmem' : dmem inter kv.1 = false := by
        cases hb : dmem inter kv.1
        · rfl
        · exact absurd hb hmem
      rw [if_neg hmem]
      have hassoc : pre ++ kv :: rest = (pre ++ [kv]) ++ rest := by simp
      rw [hassoc, ih (pre ++ [kv]) inter ?_]
      · simp [List.filter_cons, hmem']
      · intro kv' h
        rcases List.mem_append.mp h with h | h
        · exact hpre kv' h
        · rcases List.mem_singleton.mp h with rfl
          exact hmem'

theorem removeLoop_eq_filter (ben inter : Dict) :
    removeIntermediariesLoop (ben.map Prod.fst) ben inter =
      ben.filter fun kv => !dmem inter kv.1 := by
  simpa using removeLoop_filter ben [] inter (by intro kv h; cases h)

theorem dmem_filter_not_inter :
    ∀ (ben inter : Dict) (x : String),
      dmem (ben.filter fun kv => !dmem inter kv.1) x = true → dmem inter x = false := by
  intro ben
  induction ben with
  | nil => intro inter x h; cases h
  | cons kv rest ih =>
    intro inter x h
    cases hc : (!dmem inter kv.1) with
    | false =>
      rw [List.filter_cons, if_neg (by simp [hc])] at h
      exact ih inter x h
    | true =>
      rw [List.filter_cons, if_pos (by simp [hc])] at h
      by_cases hx : kv.1 = x
      · rw [← hx]
        simpa using hc
      · simp only [dmem, dfind, if_neg hx] at h
        exact ih inter x h

/-! ### Invariants of the traversal -/

theorem bfalse_of_not_true : ∀ {b : Bool}, ¬(b = true) → b = false := by
  intro b h
  cases b
  · rfl
  · exact absurd rfl h

theorem rootLoopStep_inter (rec : String → ℚ → TraceState → Except Fault TraceState)
    (addr_l k : String)
    (hrec : ∀ a q st st', rec a q st = .ok st' →
      dmem st.intermediaries k = true → dmem st'.intermediaries k = true) :
    ∀ s tx s', rootLoopStep rec addr_l s tx = .ok s' →
      dmem s.intermediaries k = true → dmem s'.intermediaries k = true := by
  intro s tx s' h hk
  simp only [rootLoopStep] at h
  split at h
  · cases h; exact hk
  · split at h
    · cases h
    next amt heq =>
      split at h
      · cases h
      next s₁ heq₁ =>
        cases h
        have h' := hrec _ _ _ s₁ heq₁ hk
        exact h'

theorem interLoopStep_inter (rec : String → ℚ → TraceState → Except Fault TraceState)
    (k : String)
    (hrec : ∀ a q st st', rec a q st = .ok st' →
      dmem st.intermediaries k = true → dmem st'.intermediaries k = true) :
    ∀ s tx s', interLoopStep rec s tx = .ok s' →
      dmem s.intermediaries k = true → dmem s'.intermediaries k = true := by
  intro s tx s' h hk
  simp only [interLoopStep] at h
  split at h
  · cases h; exact hk
  · split at h
    · cases h
    next amt heq =>
      split at h
      · cases h
      next s₁ heq₁ =>
        cases h
        have h' := hrec _ _ _ s₁ heq₁ hk
        exact h'

/-- Once an account is recorded among the intermediaries it stays there
through the rest of the traversal. -/
theorem trace_flow_inter_mono (env : Env) (k : String) :
    ∀ (fuel : Nat) (address : String) (p a : Option ℚ) (ini : Bool) (s s' : TraceState),
      trace_flow env fuel address p a ini s = .ok s' →
      dmem s.intermediaries k = true → dmem s'.intermediaries k = true := by
  intro fuel
  induction fuel with
  | zero =>
    intro address p a ini s s' h hk
    simp [trace_flow] at h
  | succ n ih =>
    intro address p a ini s s' h hk
    simp only [trace_flow] at h
    split at h
    · cases h; exact hk
    · split at h
      · cases h; exact hk
      · split at h
        · exact foldSteps_preserve (fun st => dmem st.intermediaries k = true) _
            (rootLoopStep_inter _ _ k
              (fun a' q st st' hr => ih a' (some q) (some q) false st st' hr))
            _ s s' h hk
        · split at h
          · cases h; exact hk
          · split at h
            · cases h
            · split at h
              · cases h
                simp only [disperseBranch]
                exact (dmem_dadd_iff _ _ _ k).mpr (Or.inr hk)
              · split at h
                · cases h
                · split at h
                  · cases h
                  · split at h
                    · refine foldSteps_preserve (fun st => dmem st.intermediaries k = true) _
                        (interLoopStep_inter _ k
                          (fun a' q st st' hr => ih a' (some q) (some q) false st st' hr))
                        _ _ s' h ?_
                      exact (dmem_dadd_iff _ _ _ k).mpr (Or.inr hk)
                    · cases h; exact hk


theorem noret_merge_root (base sub : Dict)
    (hb : dmem base RETURN_ADDRESS = false) (hs : dmem sub RETURN_ADDRESS = false) :
    dmem (mergeRootInto base sub) RETURN_ADDRESS = false := by
  apply bfalse_of_not_true
  intro h
  rcases dmem_mergeRootInto_imp base sub RETURN_ADDRESS h with h' | h'
  · rw [hb] at h'; cases h'
  · rw [hs] at h'; cases h'

theorem noret_merge_add (base sub : Dict)
    (hb : dmem base RETURN_ADDRESS = false) (hs : dmem sub RETURN_ADDRESS = false) :
    dmem (mergeAddInto base sub) RETURN_ADDRESS = false := by
  apply bfalse_of_not_true
  intro h
  rcases dmem_mergeAddInto_imp base sub RETURN_ADDRESS h with h' | h'
  · rw [hb] at h'; cases h'
  · rw [hs] at h'; cases h'

theorem noret_dadd (d : Dict) (k : String) (v : ℚ)
    (hk : k ≠ RETURN_ADDRESS) (hd : dmem d RETURN_ADDRESS = false) :
    dmem (dadd d k v) RETURN_ADDRESS = false := by
  apply bfalse_of_not_true
  intro h
  rcases (dmem_dadd_iff d k v RETURN_ADDRESS).mp h with h' | h'
  · exact hk h'.symm
  · rw [hd] at h'; cases h'

theorem rootLoopStep_noret (rec : String → ℚ → TraceState → Except Fault TraceState)
    (addr_l : String)
    (hrec : ∀ a q st st', rec a q st = .ok st' → NoRet st → NoRet st') :
    ∀ s tx s', rootLoopStep rec addr_l s tx = .ok s' → NoRet s → NoRet s' := by
  intro s tx s' h hk
  simp only [rootLoopStep] at h
  split at h
  · cases h; exact hk
  · split at h
    · cases h
    next amt heq =>
      split at h
      · cases h
      next s₁ heq₁ =>
        cases h
        have h₁ : NoRet s₁ := hrec _ _ _ s₁ heq₁ ⟨hk.1, hk.2⟩
        refine ⟨?_, h₁.2⟩
        apply noret_merge_root _ _ ?_ h₁.1
        split
        · exact hk.1
        · exact h₁.1

theorem interLoopStep_noret (rec : String → ℚ → TraceState → Except Fault TraceState)
    (hrec : ∀ a q st st', rec a q st = .ok st' → NoRet st → NoRet st') :
    ∀ s tx s', interLoopStep rec s tx = .ok s' → NoRet s → NoRet s' := by
  intro s tx s' h hk
  simp only [interLoopStep] at h
  split at h
  · cases h; exact hk
  · split at h
    · cases h
    next amt heq =>
      split at h
      · cases h
      next s₁ heq₁ =>
        cases h
        have h₁ : NoRet s₁ := hrec _ _ _ s₁ heq₁ ⟨hk.1, hk.2⟩
        refine ⟨?_, h₁.2⟩
        apply noret_merge_add _ _ ?_ h₁.1
        split
        · exact hk.1
        · exact h₁.1

theorem disperseBranch_noret (env : Env) (addr_l : String) (incoming_txs : List Tx)
    (s : TraceState) (haddr : addr_l ≠ RETURN_ADDRESS) (hk : NoRet s) :
    NoRet (disperseBranch env addr_l incoming_txs s) := by
  constructor
  · simp only [disperseBranch]
    rw [updateDisperseBeneficiaries_fst]
    apply bfalse_of_not_true
    intro h
    rcases dmem_foldl_dset_imp _ _ _ h with h' | h'
    · rw [hk.1] at h'; cases h'
    · rw [processRecipients_fst_no_ret _ _] at h'; cases h'
  · simp only [disperseBranch]
    exact noret_dadd _ _ _ haddr hk.2

/-- The return sink never enters the beneficiaries or the intermediaries
ledger during the traversal. -/
theorem trace_flow_noret (env : Env) :
    ∀ (fuel : Nat) (address : String) (p a : Option ℚ) (ini : Bool) (s s' : TraceState),
      trace_flow env fuel address p a ini s = .ok s' → NoRet s → NoRet s' := by
  intro fuel
  induction fuel with
  | zero =>
    intro address p a ini s s' h hk
    simp [trace_flow] at h
  | succ n ih =>
    intro address p a ini s s' h hk
    simp only [trace_flow] at h
    split at h
    · cases h; exact hk
    · split at h
      · cases h; exact hk
      next hnotret =>
        split at h
        · exact foldSteps_preserve NoRet _
            (rootLoopStep_noret _ _
              (fun a' q st st' hr => ih a' (some q) (some q) false st st' hr))
            _ s s' h hk
        · split at h
          · cases h
            refine ⟨noret_dadd _ _ _ hnotret hk.1, hk.2⟩
          · split at h
            · cases h
            · split at h
              · cases h
                exact disperseBranch_noret env _ _ _ hnotret ⟨hk.1, hk.2⟩
              · split at h
                · cases h
                · split at h
                  · cases h
                  · split at h
                    · refine foldSteps_preserve NoRet _
                        (interLoopStep_noret _
                          (fun a' q st st' hr => ih a' (some q) (some q) false st st' hr))
                        _ _ s' h ?_
                      exact ⟨hk.1, noret_dadd _ _ _ hnotret hk.2⟩
                    · cases h
                      exact ⟨noret_dadd _ _ _ hnotret hk.1, hk.2⟩


/-! ### The sort used by the tracer -/

theorem sortByTs_sorted (txs : List Tx) :
    List.Sorted (fun a b => tsLeB a.timeStamp b.timeStamp = true) (sortByTs txs) :=
  List.sorted_insertionSort _ txs

theorem sortByTs_perm (txs : List Tx) : (sortByTs txs).Perm txs :=
  List.perm_insertionSort _ txs


/-! ### Lowercase-literal evaluation helpers -/

theorem lower_a : lowerStr ("a") = "a" := by decide
theorem lower_b : lowerStr ("b") = "b" := by decide
theorem lower_c : lowerStr ("c") = "c" := by decide
theorem lower_d : lowerStr ("d") = "d" := by decide
theorem lower_e : lowerStr ("e") = "e" := by decide
theorem lower_f : lowerStr ("f") = "f" := by decide
theorem lower_g : lowerStr ("g") = "g" := by decide
theorem lower_x : lowerStr ("x") = "x" := by decide
theorem lower_z : lowerStr ("z") = "z" := by decide
theorem lower_h1 : lowerStr ("h1") = "h1" := by decide
theorem lower_h2 : lowerStr ("h2") = "h2" := by decide
theorem lower_h3 : lowerStr ("h3") = "h3" := by decide
theorem lower_h4 : lowerStr ("h4") = "h4" := by decide
theorem lower_h5 : lowerStr ("h5") = "h5" := by decide
theorem lower_h6 : lowerStr ("h6") = "h6" := by decide
theorem lower_ret : lowerStr ("0x544cbe6698e2e3b676c76097305bba588defb13a") =
    "0x544cbe6698e2e3b676c76097305bba588defb13a" := by decide

/-! ### The claims -/

/-- Claim C1: the spec says that in the literal scenario (root `a` → `b`
1000; `b` → each of `c`,`d`,`e`,`f`,`g` at 200) the trace yields
`intermediaries = {b: 1000}` and beneficiaries `c`..`g` at exactly 200 each,
each child's contribution merged additively exactly once.  The code disagrees:
because the child calls after the first share the caller's `beneficiaries`
dict object and the post-call merge then adds that dict to itself, every
already-present entry is doubled at each subsequent child call, yielding
`c: 3200, d: 3200, e: 1600, f: 800, g: 400` (intermediaries `b: 1000` is as
claimed).  This theorem evaluates the embedded code on the failing input. -/
theorem claim1_literal_scenario :
    (trace_flow envClaim1 8 ("a") none none true initState).map
      (fun st => (st.beneficiaries, st.intermediaries)) =
      .ok ([("c", 3200), ("d", 3200), ("e", 1600), ("f", 800), ("g", 400)],
           [("b", 1000)]) := by
  norm_num +decide [Except.map, trace_flow, rootLoopStep, interLoopStep, disperseBranch,
    foldSteps, get_transactions, sortByTs, sum_values, sumValuesGo, decimalOfValue,
    earliestIncomingTs, candidateOutgoing, limitedOutgoingGo, collectDests,
    collectHashes, normalizeRow, payoutKey, dedupGo, dedupPayoutRows,
    processRecipients, updateDisperseBeneficiaries, updateDisperseReturns,
    sumDictValues, mergeAddInto, mergeRootInto, dfind, dgetD, dmem, dset, dadd,
    smem, sadd, emem, eadd, addUniqueTx, initState, tsLeB, envClaim1,
    List.insertionSort, List.orderedInsert, RETURN_ADDRESS, STOP_ADDRESS,
    lower_a, lower_b, lower_c, lower_d, lower_e, lower_f, lower_g,
    lower_h1, lower_h2, lower_h3, lower_h4, lower_h5, lower_h6]

/-- Claim C7: the spec says `is_disperse_contract` never raises — any
transport or lookup failure yields `false`.  The checksum conversion, the
proxy resolution, the verified-source fetch and the ABI decoding are indeed
caught (second conjunct: a failing source lookup fail-opens to `false`),
but the `w3.eth.get_code(checksum)` call sits outside every handler, so a
transport failure there propagates to the caller (first conjunct). -/
theorem claim7_getcode_uncaught :
    is_disperse_contract svcClaim7fail ("0xabc") = .error () ∧
    is_disperse_contract svcClaim7open ("0xabc") = .ok false := by
  constructor <;> rfl

/-- Claim C8: the spec says an unparsable transaction value is coerced to
zero and never raises.  In the code only the disperse-branch coerces;
`sum_values` (and the strict `Decimal(...)` conversions of the root and
intermediary loops) raise `InvalidOperation` on the first malformed record,
aborting the whole trace.  Here a single malformed incoming record of `b`
makes both `sum_values` and the full `trace_flow` run raise. -/
theorem claim8_malformed_value_raises :
    trace_flow envClaim8 8 ("a") none none true initState = .error .invalidDecimal ∧
    sum_values (get_transactions envClaim8 ("b") true) = .error .invalidDecimal := by
  constructor <;>
  norm_num +decide [Except.map, trace_flow, rootLoopStep, interLoopStep, disperseBranch,
    foldSteps, get_transactions, sortByTs, sum_values, sumValuesGo, decimalOfValue,
    earliestIncomingTs, candidateOutgoing, limitedOutgoingGo, collectDests,
    collectHashes, normalizeRow, payoutKey, dedupGo, dedupPayoutRows,
    processRecipients, updateDisperseBeneficiaries, updateDisperseReturns,
    sumDictValues, mergeAddInto, mergeRootInto, dfind, dgetD, dmem, dset, dadd,
    smem, sadd, emem, eadd, addUniqueTx, initState, tsLeB, envClaim8,
    List.insertionSort, List.orderedInsert, RETURN_ADDRESS, STOP_ADDRESS,
    lower_a, lower_b, lower_z, lower_h1, lower_h2]

/-- Claim C9: `trace_flow` (and `find_beneficiaries`) is deterministic: two
runs over environments giving identical transaction sets, identical payout
rows and identical classifier answers produce identical results. -/
theorem claim9_deterministic (e₁ e₂ : Env) (fuel : Nat) (address : String)
    (p a : Option ℚ) (ini : Bool) (s : TraceState) (root : String)
    (h1 : e₁.txs = e₂.txs) (h2 : e₁.disperseRows = e₂.disperseRows)
    (h3 : e₁.isDisperse = e₂.isDisperse) :
    trace_flow e₁ fuel address p a ini s = trace_flow e₂ fuel address p a ini s ∧
    find_beneficiaries e₁ fuel root = find_beneficiaries e₂ fuel root := by
  obtain ⟨t1, d1, i1⟩ := e₁
  obtain ⟨t2, d2, i2⟩ := e₂
  dsimp only at h1 h2 h3
  subst h1; subst h2; subst h3
  exact ⟨rfl, rfl⟩

/-- Witness for claim C9 at a concrete environment. -/
theorem claim9_deterministic_witness :
    trace_flow envClaim9 4 ("a") none none true initState =
      trace_flow envClaim9 4 ("a") none none true initState :=
  (claim9_deterministic envClaim9 envClaim9 4 ("a") none none true initState ("a")
    rfl rfl rfl).1

/-- Claim C10: `amount_received_map` entries are assigned, never
accumulated.  In this environment the return sink receives 300 as a direct
traversal arrival and later 400 as a disperse payout: `returned_amounts`
accumulates to 700, while `amount_received_map` retains only the most
recent arrival's 400. -/
theorem claim10_map_overwritten :
    (trace_flow envClaim10 8 ("a") none none true initState).map
      (fun st => (dfind st.amount_received_map RETURN_ADDRESS,
                  st.returned_amounts)) =
      .ok (some 400, [(RETURN_ADDRESS, 700)]) := by
  norm_num +decide [Except.map, trace_flow, rootLoopStep, interLoopStep, disperseBranch,
    foldSteps, get_transactions, sortByTs, sum_values, sumValuesGo, decimalOfValue,
    earliestIncomingTs, candidateOutgoing, limitedOutgoingGo, collectDests,
    collectHashes, normalizeRow, payoutKey, dedupGo, dedupPayoutRows,
    processRecipients, updateDisperseBeneficiaries, updateDisperseReturns,
    sumDictValues, mergeAddInto, mergeRootInto, dfind, dgetD, dmem, dset, dadd,
    smem, sadd, emem, eadd, addUniqueTx, initState, tsLeB, envClaim10,
    List.insertionSort, List.orderedInsert, RETURN_ADDRESS, STOP_ADDRESS,
    lower_a, lower_b, lower_c, lower_x, lower_h1, lower_h2, lower_h3, lower_h4,
    lower_ret]


/-- Disjointness helper: filtering out the intermediary keys leaves a dict
whose every key is absent from the intermediaries. -/
theorem disjointKeys_filter (b i : Dict) :
    disjointKeys (b.filter fun kv => !dmem i kv.1) i = true := by
  unfold disjointKeys
  rw [List.all_eq_true]
  intro kv hkv
  exact (List.mem_filter.mp hkv).2

/-- Claim C2: for a non-root, non-disperse account with incoming
transactions, the attributed (limited) outgoing list is exactly: a prefix of
the candidate outgoing transactions (those at/after the earliest incoming
timestamp, all of them when it is unavailable) sorted ascending by timestamp
with unparsable timestamps first; its running value sum never exceeds the
total incoming value; it is maximal — the next transaction in sort order
would push the running sum over the cap and is excluded together with
everything after it. -/
theorem claim2_balance_limiting (env : Env) (addr_l : String) (l : List Tx)
    (total_in : ℚ)
    (hsum : sum_values (get_transactions env addr_l true) = .ok total_in)
    (hatt : attributedOutgoing env addr_l = .ok l) :
    l = (sortByTs (candidateOutgoing (earliestIncomingTs (get_transactions env addr_l true))
          (get_transactions env addr_l false))).take l.length ∧
    prefixSumsWithin total_in 0 l = true ∧
    (l.length < (sortByTs (candidateOutgoing
          (earliestIncomingTs (get_transactions env addr_l true))
          (get_transactions env addr_l false))).length →
      prefixSumsWithin total_in 0
        ((sortByTs (candidateOutgoing (earliestIncomingTs (get_transactions env addr_l true))
          (get_transactions env addr_l false))).take (l.length + 1)) = false) ∧
    List.Sorted (fun a b => tsLeB a.timeStamp b.timeStamp = true)
      (sortByTs (candidateOutgoing (earliestIncomingTs (get_transactions env addr_l true))
        (get_transactions env addr_l false))) ∧
    (sortByTs (candidateOutgoing (earliestIncomingTs (get_transactions env addr_l true))
        (get_transactions env addr_l false))).Perm
      (candidateOutgoing (earliestIncomingTs (get_transactions env addr_l true))
        (get_transactions env addr_l false)) := by
  have hatt' : limitedOutgoingGo total_in 0
      (sortByTs (candidateOutgoing (earliestIncomingTs (get_transactions env addr_l true))
        (get_transactions env addr_l false))) = .ok l := by
    simp only [attributedOutgoing, hsum] at hatt
    exact hatt
  exact ⟨limitedGo_take total_in _ 0 l hatt',
         limitedGo_within total_in _ 0 l hatt',
         fun hlt => limitedGo_maximal total_in _ 0 l hatt' hlt,
         sortByTs_sorted _, sortByTs_perm _⟩

/-- Witness for claim C2: in `envClaim2`, account `b` has total incoming
500 and its four 125-value outgoing transactions are all attributed. -/
theorem claim2_balance_limiting_witness :
    ([⟨"b", "c", some 125, some 2, "h2"⟩, ⟨"b", "d", some 125, some 3, "h3"⟩,
      ⟨"b", "e", some 125, some 4, "h4"⟩, ⟨"b", "f", some 125, some 5, "h5"⟩] : List Tx) =
      (sortByTs (candidateOutgoing
          (earliestIncomingTs (get_transactions envClaim2 ("b") true))
          (get_transactions envClaim2 ("b") false))).take
        ([⟨"b", "c", some 125, some 2, "h2"⟩, ⟨"b", "d", some 125, some 3, "h3"⟩,
          ⟨"b", "e", some 125, some 4, "h4"⟩,
          ⟨"b", "f", some 125, some 5, "h5"⟩] : List Tx).length ∧
    prefixSumsWithin 500 0
      ([⟨"b", "c", some 125, some 2, "h2"⟩, ⟨"b", "d", some 125, some 3, "h3"⟩,
        ⟨"b", "e", some 125, some 4, "h4"⟩,
        ⟨"b", "f", some 125, some 5, "h5"⟩] : List Tx) = true ∧
    (([⟨"b", "c", some 125, some 2, "h2"⟩, ⟨"b", "d", some 125, some 3, "h3"⟩,
       ⟨"b", "e", some 125, some 4, "h4"⟩,
       ⟨"b", "f", some 125, some 5, "h5"⟩] : List Tx).length <
        (sortByTs (candidateOutgoing
          (earliestIncomingTs (get_transactions envClaim2 ("b") true))
          (get_transactions envClaim2 ("b") false))).length →
      prefixSumsWithin 500 0
        ((sortByTs (candidateOutgoing
          (earliestIncomingTs (get_transactions envClaim2 ("b") true))
          (get_transactions envClaim2 ("b") false))).take
          (([⟨"b", "c", some 125, some 2, "h2"⟩, ⟨"b", "d", some 125, some 3, "h3"⟩,
             ⟨"b", "e", some 125, some 4, "h4"⟩,
             ⟨"b", "f", some 125, some 5, "h5"⟩] : List Tx).length + 1)) = false) ∧
    List.Sorted (fun a b => tsLeB a.timeStamp b.timeStamp = true)
      (sortByTs (candidateOutgoing
        (earliestIncomingTs (get_transactions envClaim2 ("b") true))
        (get_transactions envClaim2 ("b") false))) ∧
    (sortByTs (candidateOutgoing
        (earliestIncomingTs (get_transactions envClaim2 ("b") true))
        (get_transactions envClaim2 ("b") false))).Perm
      (candidateOutgoing (earliestIncomingTs (get_transactions envClaim2 ("b") true))
        (get_transactions envClaim2 ("b") false)) :=
  claim2_balance_limiting envClaim2 ("b") _ 500
    (by norm_num +decide [get_transactions, sum_values, sumValuesGo, decimalOfValue,
      envClaim2, lower_a, lower_b, lower_c, lower_d, lower_e, lower_f,
      lower_h1, lower_h2, lower_h3, lower_h4, lower_h5])
    (by norm_num +decide [attributedOutgoing, get_transactions, sortByTs, sum_values,
      sumValuesGo, decimalOfValue, earliestIncomingTs, candidateOutgoing,
      limitedOutgoingGo, tsLeB, envClaim2, List.insertionSort, List.orderedInsert,
      lower_a, lower_b, lower_c, lower_d, lower_e, lower_f,
      lower_h1, lower_h2, lower_h3, lower_h4, lower_h5])

/-- Claim C5: `find_beneficiaries` runs the root trace and then deletes from
the beneficiaries every key that also appears among the intermediaries
(the loop is exactly a filter), leaving intermediaries and returned amounts
unchanged; the returned beneficiaries and intermediaries have disjoint key
sets. -/
theorem claim5_reconciler (env : Env) (fuel : Nat) (root : String)
    (st : TraceState) (out : Dict × Dict × Dict)
    (htr : trace_flow env fuel (lowerStr root) none none true initState = .ok st)
    (h : find_beneficiaries env fuel root = .ok out) :
    out.1 = (st.beneficiaries.filter fun kv => !dmem st.intermediaries kv.1) ∧
    out.2.1 = st.intermediaries ∧ out.2.2 = st.returned_amounts ∧
    disjointKeys out.1 out.2.1 = true := by
  simp only [find_beneficiaries, htr] at h
  cases h
  refine ⟨removeLoop_eq_filter st.beneficiaries st.intermediaries, rfl, rfl, ?_⟩
  show disjointKeys (removeIntermediariesLoop _ _ _) st.intermediaries = true
  rw [removeLoop_eq_filter]
  exact disjointKeys_filter st.beneficiaries st.intermediaries

/-- Witness for claim C5 at a concrete environment: `b` is the only
beneficiary and there are no intermediaries. -/
theorem claim5_reconciler_witness :
    (([("b", 100)], [], []) : Dict × Dict × Dict).1 =
      ((⟨["b"], [("b", 100)], [], [], [("b", 100)], [("a", "b")], [], []⟩ :
          TraceState).beneficiaries.filter fun kv =>
        !dmem (⟨["b"], [("b", 100)], [], [], [("b", 100)], [("a", "b")], [], []⟩ :
          TraceState).intermediaries kv.1) ∧
    (([("b", 100)], [], []) : Dict × Dict × Dict).2.1 =
      (⟨["b"], [("b", 100)], [], [], [("b", 100)], [("a", "b")], [], []⟩ :
        TraceState).intermediaries ∧
    (([("b", 100)], [], []) : Dict × Dict × Dict).2.2 =
      (⟨["b"], [("b", 100)], [], [], [("b", 100)], [("a", "b")], [], []⟩ :
        TraceState).returned_amounts ∧
    disjointKeys (([("b", 100)], [], []) : Dict × Dict × Dict).1
      (([("b", 100)], [], []) : Dict × Dict × Dict).2.1 = true :=
  claim5_reconciler envClaim5 4 ("a")
    ⟨["b"], [("b", 100)], [], [], [("b", 100)], [("a", "b")], [], []⟩
    ([("b", 100)], [], [])
    (by norm_num +decide [Except.map, trace_flow, rootLoopStep, interLoopStep,
      disperseBranch, foldSteps, get_transactions, sortByTs, sum_values, sumValuesGo,
      decimalOfValue, earliestIncomingTs, candidateOutgoing, limitedOutgoingGo,
      collectDests, collectHashes, normalizeRow, payoutKey, dedupGo, dedupPayoutRows,
      processRecipients, updateDisperseBeneficiaries, updateDisperseReturns,
      sumDictValues, mergeAddInto, mergeRootInto, dfind, dgetD, dmem, dset, dadd,
      smem, sadd, emem, eadd, addUniqueTx, initState, tsLeB, envClaim5,
      List.insertionSort, List.orderedInsert, RETURN_ADDRESS, STOP_ADDRESS,
      lower_a, lower_b, lower_h1])
    (by norm_num +decide [find_beneficiaries, removeIntermediariesLoop, ddel,
      Except.map, trace_flow, rootLoopStep, interLoopStep,
      disperseBranch, foldSteps, get_transactions, sortByTs, sum_values, sumValuesGo,
      decimalOfValue, earliestIncomingTs, candidateOutgoing, limitedOutgoingGo,
      collectDests, collectHashes, normalizeRow, payoutKey, dedupGo, dedupPayoutRows,
      processRecipients, updateDisperseBeneficiaries, updateDisperseReturns,
      sumDictValues, mergeAddInto, mergeRootInto, dfind, dgetD, dmem, dset, dadd,
      smem, sadd, emem, eadd, addUniqueTx, initState, tsLeB, envClaim5,
      List.insertionSort, List.orderedInsert, RETURN_ADDRESS, STOP_ADDRESS,
      lower_a, lower_b, lower_h1])

/-- Claim C6: disperse payout records are deduplicated exactly on the
composite key (hash, recipient, value, timestamp): appending an exact
duplicate of a record already in the matched list leaves the deduplicated
list — and hence every per-recipient bucket sum computed from it —
unchanged, and the deduplicated list's composite keys are pairwise
distinct, so each record contributes exactly once. -/
theorem claim6_dedup_once (rows : List PayoutRow) (r : PayoutRow) (uq0 : UniqTxs)
    (h : r ∈ rows) :
    dedupPayoutRows (rows ++ [r]) = dedupPayoutRows rows ∧
    ((dedupPayoutRows rows).map payoutKey).Nodup ∧
    processRecipients (dedupPayoutRows (rows ++ [r])) uq0 =
      processRecipients (dedupPayoutRows rows) uq0 := by
  have heq : dedupPayoutRows (rows ++ [r]) = dedupPayoutRows rows := by
    unfold dedupPayoutRows
    rw [dedupGo_append rows [r] []]
    by_cases h0 : r.toAddr = ""
    · simp [dedupGo, h0]
    · have hk := payoutKey_mem_seenAfter rows [] r h h0
      simp [dedupGo, h0, hk]
  exact ⟨heq, (dedupGo_keys_nodup rows []).1, by rw [heq]⟩

/-- Witness for claim C6 on a concrete duplicated payout row. -/
theorem claim6_dedup_once_witness :
    dedupPayoutRows ([rowClaim6, rowClaim6] ++ [rowClaim6]) =
      dedupPayoutRows [rowClaim6, rowClaim6] ∧
    ((dedupPayoutRows [rowClaim6, rowClaim6]).map payoutKey).Nodup ∧
    processRecipients (dedupPayoutRows ([rowClaim6, rowClaim6] ++ [rowClaim6])) [] =
      processRecipients (dedupPayoutRows [rowClaim6, rowClaim6]) [] :=
  claim6_dedup_once [rowClaim6, rowClaim6] rowClaim6 []
    (List.mem_cons_self rowClaim6 [rowClaim6])


/-- Claim C3: a non-root, non-disperse account with incoming transactions is
recorded as an intermediary iff its limited-outgoing total strictly exceeds
500 or its number of distinct limited-outgoing destinations strictly exceeds
4; otherwise (e.g. total exactly 500 with exactly 4 destinations) it is
recorded as a beneficiary credited with the actual amount it received. -/
theorem claim3_threshold (env : Env) (fuel : Nat) (address : String) (p a : Option ℚ)
    (s s' : TraceState) (total_in total_out : ℚ) (l : List Tx)
    (haddr1 : ¬ lowerStr address = "")
    (haddr2 : smem STOP_ADDRESS (lowerStr address) = false)
    (haddr3 : ¬ lowerStr address = RETURN_ADDRESS)
    (hinc : (get_transactions env (lowerStr address) true).isEmpty = false)
    (hdisp : env.isDisperse (lowerStr address) = false)
    (hstart : dmem s.intermediaries (lowerStr address) = false)
    (hsum : sum_values (get_transactions env (lowerStr address) true) = .ok total_in)
    (hlim : limitedOutgoingGo total_in 0 (sortByTs (candidateOutgoing
        (earliestIncomingTs (get_transactions env (lowerStr address) true))
        (get_transactions env (lowerStr address) false))) = .ok l)
    (hout : sum_values l = .ok total_out)
    (hrun : trace_flow env (fuel + 1) address p a false s = .ok s') :
    ((total_out > 500 ∨ (collectDests l []).length > 4) ↔
        dmem s'.intermediaries (lowerStr address) = true) ∧
    (¬(total_out > 500 ∨ (collectDests l []).length > 4) →
        s' = { s with
          beneficiaries := dadd s.beneficiaries (lowerStr address) (a.getD 0),
          amount_received_map :=
            dset s.amount_received_map (lowerStr address) (a.getD 0) }) := by
  have hc1 : ¬(lowerStr address = "" ∨ smem STOP_ADDRESS (lowerStr address) = true) := by
    rintro (h | h)
    · exact haddr1 h
    · rw [haddr2] at h; cases h
  have hfalse : ¬(false = true) := by decide
  simp only [trace_flow] at hrun
  rw [if_neg hc1] at hrun
  rw [if_neg haddr3] at hrun
  rw [if_neg hfalse] at hrun
  rw [hinc] at hrun
  rw [if_neg hfalse] at hrun
  simp only [hsum] at hrun
  rw [hdisp] at hrun
  rw [if_neg hfalse] at hrun
  simp only [hlim] at hrun
  simp only [hout] at hrun
  by_cases hflag : total_out > 500 ∨ (collectDests l []).length > 4
  · rw [if_pos hflag] at hrun
    have hmem : dmem s'.intermediaries (lowerStr address) = true := by
      refine foldSteps_preserve
        (fun st => dmem st.intermediaries (lowerStr address) = true) _
        (interLoopStep_inter _ _
          (fun a' q st st' hr =>
            trace_flow_inter_mono env (lowerStr address) fuel a'
              (some q) (some q) false st st' hr))
        _ _ s' hrun ?_
      exact dmem_dadd_self _ _ _
    exact ⟨⟨fun _ => hmem, fun _ => hflag⟩, fun hn => absurd hflag hn⟩
  · rw [if_neg hflag] at hrun
    cases hrun
    refine ⟨⟨fun hf => absurd hf hflag, fun hm => ?_⟩, fun _ => rfl⟩
    have hm' : dmem s.intermediaries (lowerStr address) = true := hm
    rw [hstart] at hm'
    exact Bool.noConfusion hm'


/-- Witness for claim C3: in `envClaim3`, `b` has limited-outgoing total
exactly 500 over exactly 4 distinct destinations and is classified as a
beneficiary credited with the 500 it received. -/
theorem claim3_threshold_witness :
    ((500 : ℚ) > 500 ∨
        (collectDests [⟨"b", "c", some 125, some 2, "h2"⟩,
          ⟨"b", "d", some 125, some 3, "h3"⟩, ⟨"b", "e", some 125, some 4, "h4"⟩,
          ⟨"b", "f", some 125, some 5, "h5"⟩] []).length > 4 ↔
      dmem (⟨[], [("b", 500)], [], [], [("b", 500)], [], [], []⟩ :
        TraceState).intermediaries (lowerStr ("b")) = true) ∧
    (¬((500 : ℚ) > 500 ∨
        (collectDests [⟨"b", "c", some 125, some 2, "h2"⟩,
          ⟨"b", "d", some 125, some 3, "h3"⟩, ⟨"b", "e", some 125, some 4, "h4"⟩,
          ⟨"b", "f", some 125, some 5, "h5"⟩] []).length > 4) →
      (⟨[], [("b", 500)], [], [], [("b", 500)], [], [], []⟩ : TraceState) =
        { initState with
          beneficiaries := dadd initState.beneficiaries (lowerStr ("b"))
            ((some (500 : ℚ)).getD 0),
          amount_received_map := dset initState.amount_received_map (lowerStr ("b"))
            ((some (500 : ℚ)).getD 0) }) :=
  claim3_threshold envClaim3 2 ("b") (some 500) (some 500) initState
    ⟨[], [("b", 500)], [], [], [("b", 500)], [], [], []⟩ 500 500
    [⟨"b", "c", some 125, some 2, "h2"⟩, ⟨"b", "d", some 125, some 3, "h3"⟩,
     ⟨"b", "e", some 125, some 4, "h4"⟩, ⟨"b", "f", some 125, some 5, "h5"⟩]
    (by decide) (by decide) (by decide)
    (by norm_num +decide [get_transactions, envClaim3, lower_a, lower_b, lower_c,
      lower_d, lower_e, lower_f, lower_h1, lower_h2, lower_h3, lower_h4, lower_h5])
    (by norm_num +decide [envClaim3, lower_b])
    (by decide)
    (by norm_num +decide [get_transactions, sum_values, sumValuesGo, decimalOfValue,
      envClaim3, lower_a, lower_b, lower_c, lower_d, lower_e, lower_f,
      lower_h1, lower_h2, lower_h3, lower_h4, lower_h5])
    (by norm_num +decide [get_transactions, sortByTs, sum_values, sumValuesGo,
      decimalOfValue, earliestIncomingTs, candidateOutgoing, limitedOutgoingGo,
      tsLeB, envClaim3, List.insertionSort, List.orderedInsert,
      lower_a, lower_b, lower_c, lower_d, lower_e, lower_f,
      lower_h1, lower_h2, lower_h3, lower_h4, lower_h5])
    (by norm_num +decide [sum_values, sumValuesGo, decimalOfValue])
    (by norm_num +decide [Except.map, trace_flow, rootLoopStep, interLoopStep,
      disperseBranch, foldSteps, get_transactions, sortByTs, sum_values, sumValuesGo,
      decimalOfValue, earliestIncomingTs, candidateOutgoing, limitedOutgoingGo,
      collectDests, collectHashes, normalizeRow, payoutKey, dedupGo, dedupPayoutRows,
      processRecipients, updateDisperseBeneficiaries, updateDisperseReturns,
      sumDictValues, mergeAddInto, mergeRootInto, dfind, dgetD, dmem, dset, dadd,
      smem, sadd, emem, eadd, addUniqueTx, initState, tsLeB, envClaim3,
      List.insertionSort, List.orderedInsert, RETURN_ADDRESS, STOP_ADDRESS,
      lower_a, lower_b, lower_c, lower_d, lower_e, lower_f,
      lower_h1, lower_h2, lower_h3, lower_h4, lower_h5])

/-- Claim C4, counterexample to the stated exact-sum property: in
`envClaim4` the intermediary `b` sends two 300-value transactions to the
return sink, but the second destination is already in `visited` and is
skipped, so `returned_amounts` records 300 while the sum of all
transactions into the sink is 600. -/
theorem claim4_counterexample :
    (trace_flow envClaim4 8 ("a") none none true initState).map
      (fun st => st.returned_amounts) = .ok [(RETURN_ADDRESS, 300)] ∧
    sum_values (envClaim4.txs.filter fun tx =>
      if tx.toAddr = RETURN_ADDRESS then true else false) = .ok 600 ∧
    ¬((300 : ℚ) = 600) := by
  refine ⟨?_, ?_, by norm_num⟩
  · norm_num +decide [Except.map, trace_flow, rootLoopStep, interLoopStep,
      disperseBranch, foldSteps, get_transactions, sortByTs, sum_values, sumValuesGo,
      decimalOfValue, earliestIncomingTs, candidateOutgoing, limitedOutgoingGo,
      collectDests, collectHashes, normalizeRow, payoutKey, dedupGo, dedupPayoutRows,
      processRecipients, updateDisperseBeneficiaries, updateDisperseReturns,
      sumDictValues, mergeAddInto, mergeRootInto, dfind, dgetD, dmem, dset, dadd,
      smem, sadd, emem, eadd, addUniqueTx, initState, tsLeB, envClaim4,
      List.insertionSort, List.orderedInsert, RETURN_ADDRESS, STOP_ADDRESS,
      lower_a, lower_b, lower_c, lower_h1, lower_h2, lower_h3, lower_h4, lower_ret]
  · norm_num +decide [sum_values, sumValuesGo, decimalOfValue, envClaim4,
      RETURN_ADDRESS]

/-- Claim C4, amended: when the traversal reaches the return sink it adds
the actually received amount into `returned_amounts`, assigns it in
`amount_received_map`, and explores nothing further (the resulting state is
exactly the input state with those two updates); and the return sink never
appears as a key of `beneficiaries` or `intermediaries`.  (The original
claim's equality with the sum of *all* transactions into the sink fails —
see the counterexample — because a direct arrival adds the sink to
`visited`, so later direct transactions to it are skipped.) -/
theorem claim4_amended (env : Env) (fuel : Nat) (address : String) (p a : Option ℚ)
    (ini : Bool) (s s' : TraceState)
    (hb : dmem s.beneficiaries RETURN_ADDRESS = false)
    (hi : dmem s.intermediaries RETURN_ADDRESS = false)
    (hrun : trace_flow env fuel address p a ini s = .ok s') :
    (lowerStr address = RETURN_ADDRESS →
      s' = { s with
        returned_amounts := dadd s.returned_amounts RETURN_ADDRESS (a.getD 0),
        amount_received_map := dset s.amount_received_map RETURN_ADDRESS (a.getD 0) }) ∧
    dmem s'.beneficiaries RETURN_ADDRESS = false ∧
    dmem s'.intermediaries RETURN_ADDRESS = false := by
  have hnr := trace_flow_noret env fuel address p a ini s s' hrun ⟨hb, hi⟩
  refine ⟨?_, hnr.1, hnr.2⟩
  intro hret
  cases fuel with
  | zero => simp [trace_flow] at hrun
  | succ n =>
    simp only [trace_flow] at hrun
    rw [hret] at hrun
    rw [if_neg (by decide)] at hrun
    rw [if_pos rfl] at hrun
    cases hrun
    rfl

/-- Witness for claim C4 (amended) at a direct call on the return sink. -/
theorem claim4_amended_witness :
    (lowerStr RETURN_ADDRESS = RETURN_ADDRESS →
      (⟨[], [], [], [], [(RETURN_ADDRESS, 5)], [], [], [(RETURN_ADDRESS, 5)]⟩ :
          TraceState) =
        { initState with
          returned_amounts := dadd initState.returned_amounts RETURN_ADDRESS
            ((some (5 : ℚ)).getD 0),
          amount_received_map := dset initState.amount_received_map RETURN_ADDRESS
            ((some (5 : ℚ)).getD 0) }) ∧
    dmem (⟨[], [], [], [], [(RETURN_ADDRESS, 5)], [], [], [(RETURN_ADDRESS, 5)]⟩ :
        TraceState).beneficiaries RETURN_ADDRESS = false ∧
    dmem (⟨[], [], [], [], [(RETURN_ADDRESS, 5)], [], [], [(RETURN_ADDRESS, 5)]⟩ :
        TraceState).intermediaries RETURN_ADDRESS = false :=
  claim4_amended envClaim4 1 RETURN_ADDRESS none (some 5) false initState
    ⟨[], [], [], [], [(RETURN_ADDRESS, 5)], [], [], [(RETURN_ADDRESS, 5)]⟩
    (by decide) (by decide)
    (by norm_num +decide [trace_flow, foldSteps, get_transactions, decimalOfValue,
      dadd, dset, dgetD, dfind, dmem, smem, initState, envClaim4,
      RETURN_ADDRESS, STOP_ADDRESS, lower_ret])

end ProtocolAnalyzer
